import Mathlib

/-!
Verification of the wrestlers.ai retrieval-augmented chat backend.

JS strings are modelled as lists of characters (`Str`); `String.length`,
`slice`, `trim` and friends operate on UTF-16 code units in JS and on the
corresponding characters here.  Route handlers are modelled as pure functions
from an environment that records the outcome of every collaborator call
(OpenAI, Supabase) to the produced HTTP response together with the ordered
trace of collaborator calls that were issued.
-/

set_option linter.unusedVariables false

abbrev Str := List Char

namespace Chunker

/-- The character class matched by the JS regex class backslash-s and removed
by String.prototype.trim: tab, LF, VT, FF, CR, space, NBSP and the Unicode
space separators, line/paragraph separators and BOM. -/
def isSpace (c : Char) : Bool :=
  c = ' ' || c = '\t' || c = '\n' || c = '\r' ||
  c.val = 0x0b || c.val = 0x0c || c.val = 0xa0 ||
  c.val = 0x1680 || (0x2000 ≤ c.val && c.val ≤ 0x200a) ||
  c.val = 0x2028 || c.val = 0x2029 || c.val = 0x202f ||
  c.val = 0x205f || c.val = 0x3000 || c.val = 0xfeff

/-- `text.replace(/\r\n/g, "\n")`: replace every non-overlapping CR-LF pair,
scanning left to right, by a single LF. -/
def replaceCRLF : Str → Str
  | [] => []
  | '\r' :: '\n' :: rest => '\n' :: replaceCRLF rest
  | c :: rest => c :: replaceCRLF rest

/-- `s.trim()`: drop leading and trailing whitespace. -/
def trim (s : Str) : Str :=
  ((s.dropWhile isSpace).reverse.dropWhile isSpace).reverse

/-- Index of the last LF in a list, if any. -/
def lastNl : Str → Option Nat
  | [] => none
  | c :: cs =>
    match lastNl cs with
    | some i => some (i + 1)
    | none => if c = '\n' then some 0 else none

/-- The scanner for the split regex has just consumed a LF and `cs` is the
remaining input.  If the greedy backslash-s-star followed by a final LF can
match here, return how many characters of `cs` it consumes (the whole match
consumes one more, the initial LF).  The greedy star with backtracking ends
the match at the last LF inside the maximal whitespace run. -/
def sepMatchLen (cs : Str) : Option Nat :=
  match lastNl (cs.takeWhile isSpace) with
  | some j => some (j + 1)
  | none => none

/-- `cleaned.split(/\n\s*\n/)`: worker.  `acc` holds the characters of the
part currently being accumulated, in reverse; `skip` is the number of
characters still to be skipped because they belong to the separator match
just found (the scan resumes after the matched portion). -/
def splitGo (skip : Nat) (acc : Str) : Str → List Str
  | [] => [acc.reverse]
  | c :: cs =>
    match skip with
    | k + 1 => splitGo k acc cs
    | 0 =>
      if c = '\n' then
        match sepMatchLen cs with
        | some n => acc.reverse :: splitGo n [] cs
        | none => splitGo 0 (c :: acc) cs
      else splitGo 0 (c :: acc) cs

/-- `cleaned.split(/\n\s*\n/)`. -/
def splitParas (s : Str) : List Str := splitGo 0 [] s

/-- The blank-line separator `"\n\n"` used when joining paragraphs. -/
def sep : Str := ['\n', '\n']

/-- The paragraph-accumulation loop of `chunkText`, with `current` the running
buffer.  Emitted chunks appear in order before the chunks produced by the rest
of the loop. -/
def chunkLoop (maxChars : Nat) : List Str → Str → List Str
  | [], current => if current.isEmpty then [] else [current]
  | p :: ps, current =>
    let block := trim p
    if block.isEmpty then chunkLoop maxChars ps current
    else if (current ++ sep ++ block).length ≤ maxChars then
      chunkLoop maxChars ps (if current.isEmpty then block else current ++ sep ++ block)
    else
      (if current.isEmpty then [] else [current]) ++
        chunkLoop maxChars ps (if block.length ≤ maxChars then block else block.take maxChars)

/-- `chunkText(text, maxChars)` from the ingest route: normalize CR-LF, trim,
split into paragraphs on blank-line boundaries, then greedily pack paragraphs
(joined by a blank line) into chunks of at most `maxChars` characters,
hard-truncating a single over-long paragraph. -/
def chunkText (text : Str) (maxChars : Nat := 900) : List Str :=
  chunkLoop maxChars (splitParas (trim (replaceCRLF text))) []

/-- A paragraph truncated the way the accumulation loop truncates it: kept
whole if it fits in `maxChars`, hard-cut to `maxChars` characters otherwise. -/
def truncate (maxChars : Nat) (b : Str) : Str :=
  if b.length ≤ maxChars then b else b.take maxChars

/-- The trimmed non-blank paragraphs the loop actually processes, in order. -/
def nonblankBlocks (paras : List Str) : List Str :=
  (paras.map trim).filter (fun b => !b.isEmpty)

/-- Join a list of chunks (or paragraphs) with the blank-line separator. -/
def joinSep : List Str → Str
  | [] => []
  | [c] => c
  | c :: cs => c ++ sep ++ joinSep cs

/-- Join two possibly-empty pieces with the blank-line separator, dropping it
when either side is empty. -/
def joinNE (a b : Str) : Str :=
  if a.isEmpty then b else if b.isEmpty then a else a ++ sep ++ b

/-- Scanning predicate: `s` contains a match of the separator regex
`\n\s*\n` (a LF whose following whitespace run contains another LF). -/
def hasSepAux : Str → Bool
  | [] => false
  | c :: cs => (c = '\n' && (sepMatchLen cs).isSome) || hasSepAux cs

/-- A block as the accumulation loop sees one: a non-empty trimmed paragraph
containing no separator match. -/
def GoodBlock (b : Str) : Prop :=
  b ≠ [] ∧ trim b = b ∧ hasSepAux b = false

/-- Shape of every chunk `chunkText` can emit: either a blank-line join of
good blocks, or the `maxChars`-character prefix of a single over-long good
block. -/
def GoodChunk (maxChars : Nat) (c : Str) : Prop :=
  (∃ bs, bs ≠ [] ∧ (∀ b ∈ bs, GoodBlock b) ∧ c = joinSep bs) ∨
  (∃ b, GoodBlock b ∧ maxChars < b.length ∧ c = b.take maxChars)

end Chunker

namespace RateLimiter

/-- A rate bucket as stored in the route's module-level maps. -/
structure Bucket where
  count : Nat
  resetAt : Nat
deriving DecidableEq

/-- `Math.ceil(ms / 1000)` for a nonnegative integer millisecond count. -/
def ceilSec (ms : Nat) : Nat := (ms + 999) / 1000

/-- One `bump(buckets, key, limit, windowMs)` call, acting on the bucket the
map stores for the key (`none` when absent) at time `now`.  Returns the
bucket left in the map together with `some retryAfterSec` when the call
throws the rate-limit error; the count is incremented even on the throwing
path, exactly as the source mutates `b.count` before throwing. -/
def bump (b : Option Bucket) (limit windowMs now : Nat) : Bucket × Option Nat :=
  match b with
  | none => (⟨1, now + windowMs⟩, none)
  | some b =>
    if now > b.resetAt then (⟨1, now + windowMs⟩, none)
    else if b.count + 1 > limit then
      (⟨b.count + 1, b.resetAt⟩, some (ceilSec (b.resetAt - now)))
    else (⟨b.count + 1, b.resetAt⟩, none)

/-- Iterate `bump` over a list of call times for one key, collecting each
call's outcome (`none` means the call was admitted). -/
def run (limit windowMs : Nat) : Option Bucket → List Nat → Option Bucket × List (Option Nat)
  | st, [] => (st, [])
  | st, t :: ts =>
    let r := bump st limit windowMs t
    let rest := run limit windowMs (some r.1) ts
    (rest.1, r.2 :: rest.2)

end RateLimiter

/-- JSON values, used to state exactly which fields a response body carries. -/
inductive JVal where
  | s (v : Str)
  | n (v : Nat)
  | q (v : Rat)
  | b (v : Bool)
  | arr (vs : List JVal)
  | obj (fields : List (String × JVal))

/-- The top-level field names of a JSON object body. -/
def JVal.keys : JVal → List String
  | .obj fs => fs.map Prod.fst
  | _ => []

/-- Look up a top-level field of a JSON object body. -/
def JVal.getField : JVal → String → Option JVal
  | .obj fs, k => fs.lookup k
  | _, _ => none

/-- Whether a JSON object body has a top-level field of the given name. -/
def JVal.hasField (j : JVal) (k : String) : Bool :=
  (j.keys).contains k

/-- A `NextResponse.json` result: HTTP status, extra headers, JSON body. -/
structure Resp where
  status : Nat
  headers : List (String × String)
  body : JVal

namespace Chat

/-- An upstream (OpenAI / Supabase) failure as thrown: JS errors optionally
carry a numeric `status`, and always a `message`. -/
structure UpErr where
  status : Option Nat
  message : Str
deriving DecidableEq

/-- What the chat route throws internally: the rate-limit error built by
`bump` (status 429 plus `retryAfterSec`) or a propagated upstream error. -/
inductive Thrown where
  | rate (retryAfterSec : Nat)
  | upstream (e : UpErr)

/-- A row returned by the `match_document_chunks` RPC. -/
structure ChunkRow where
  content : Str
  similarity : Rat
deriving DecidableEq

/-- The collaborator calls the chat route can issue, in the order the trace
records them. -/
inductive Ev where
  | admitted
  | retrieveCtx
  | createConv
  | insertUserMsg
  | completionCall
  | insertAsstMsg
deriving DecidableEq

/-- Everything the environment decides for one POST /chat invocation: current
rate-bucket contents and clock, the parsed body, and the outcome of each
collaborator call were it to be issued. -/
structure ChatEnv where
  minuteBucket : Option RateLimiter.Bucket
  dayBucket : Option RateLimiter.Bucket
  now : Nat
  message : Option Str
  conversationId : Option Str
  embedResult : Except UpErr Unit
  rpcError : Option UpErr
  rpcData : Option (List ChunkRow)
  createConvResult : Except UpErr Str
  userInsertError : Option UpErr
  completionResult : Except UpErr (Option Str)
  asstInsertError : Option UpErr

/-- `retrieveContext(query, matchCount)`: embed the query, call the
`match_document_chunks` RPC, throw on RPC error, default missing data to the
empty list. -/
def retrieveContext (env : ChatEnv) (query : Str) (matchCount : Nat) :
    Except UpErr (List ChunkRow) :=
  match env.embedResult with
  | .error e => .error e
  | .ok _ =>
    match env.rpcError with
    | some e => .error e
    | none => .ok (env.rpcData.getD [])

/-- `Math.floor` based model of rounding a similarity to three decimals, as
`Number(c.similarity.toFixed(3))` does (round half away from zero agrees with
round half up on the nonnegative similarities at stake; the floating-point
quirks of `toFixed` are not observable by any property below). -/
def round3 (q : Rat) : Rat := (Int.floor (q * 1000 + 1 / 2) : Int) / 1000

/-- Decimal rendering of a rounded similarity for display inside the context
block; no property below depends on the rendering itself. -/
def toFixed3 (q : Rat) : Str := (toString (round3 q)).data

/-- Join with an arbitrary separator string, as `Array.prototype.join`. -/
def joinWith (s : Str) : List Str → Str
  | [] => []
  | [x] => x
  | x :: xs => x ++ s ++ joinWith s xs

/-- One entry of the context block: `Source i (score s):\ncontent`. -/
def srcEntry (idx : Nat) (c : ChunkRow) : Str :=
  ("Source ").data ++ (Nat.repr (idx + 1)).data ++ (" (score ").data ++
    toFixed3 c.similarity ++ ("):\n").data ++ c.content

/-- The `contextBlock` string assembled from the retrieved chunks: empty when
no chunk was retrieved, otherwise a headed list of scored excerpts. -/
def contextBlock (chunks : List ChunkRow) : Str :=
  if 0 < chunks.length then
    ("Wrestlers AI Knowledge (most relevant excerpts):\n\n").data ++
      joinWith (("\n\n---\n\n").data) (chunks.mapIdx (fun i c => srcEntry i c))
  else []

/-- The `sources` array of the 200 body: first three chunks, 1-based index,
similarity rounded to three decimals, 120-character content preview. -/
def sourcesOf (chunks : List ChunkRow) : List JVal :=
  (chunks.take 3).mapIdx (fun i c =>
    JVal.obj [("index", JVal.n (i + 1)), ("similarity", JVal.q (round3 c.similarity)),
      ("preview", JVal.s (c.content.take 120))])

/-- The fixed part of the system prompt sent to the completion service. -/
def basePrompt : Str :=
  ("You are Ask Wrestlers AI. Be coach-like and practical. Include: Key Cues, 2-3 Drills (reps/time), Common Mistakes, and a short Safety note if relevant. Ask ONE clarifying question if needed.\n\nWhen Wrestlers AI Knowledge is provided, prefer it over general knowledge and do not invent details not supported by it.\n\n").data

/-- The full system prompt: fixed instructions followed by the context
block. -/
def systemPrompt (ctx : Str) : Str := basePrompt ++ ctx

/-- `resp.output_text?.trim() || "Try rephrasing your question."`. -/
def fallbackAnswer : Str := ("Try rephrasing your question.").data

/-- The answer string extracted from the completion response. -/
def answerOf : Option Str → Str
  | some t => if (Chunker.trim t).isEmpty then fallbackAnswer else Chunker.trim t
  | none => fallbackAnswer

/-- The message of the rate-limit error thrown by `bump`. -/
def rateMsg : Str := ("Rate limit exceeded. Please try again shortly.").data

/-- The catch block of the chat route: status from `err.status ?? 500`, a
`Retry-After` header only when the status is 429 and `retryAfterSec` is
truthy (so not when it is 0), body `error: message`. -/
def catchResp : Thrown → Resp
  | .rate r =>
    ⟨429, if r ≠ 0 then [("Retry-After", Nat.repr r)] else [],
      JVal.obj [("error", JVal.s rateMsg)]⟩
  | .upstream e => ⟨e.status.getD 500, [], JVal.obj [("error", JVal.s e.message)]⟩

/-- Continuation of the chat route after the conversation id is known:
persist the user message, call the completion service, persist the assistant
message, return the 200 body. -/
def chatStep2 (env : ChatEnv) (chunks : List ChunkRow) (tr : List Ev) (cid : Str) :
    Resp × List Ev :=
  match env.userInsertError with
  | some e => (catchResp (.upstream e), tr ++ [.insertUserMsg])
  | none =>
    match env.completionResult with
    | .error e => (catchResp (.upstream e), tr ++ [.insertUserMsg, .completionCall])
    | .ok out =>
      match env.asstInsertError with
      | some e =>
        (catchResp (.upstream e), tr ++ [.insertUserMsg, .completionCall, .insertAsstMsg])
      | none =>
        (⟨200, [],
          JVal.obj [("conversationId", JVal.s cid), ("answer", JVal.s (answerOf out)),
            ("sources", JVal.arr (sourcesOf chunks))]⟩,
          tr ++ [.insertUserMsg, .completionCall, .insertAsstMsg])

/-- Continuation of the chat route after retrieval succeeded: reject a blank
message with 400, then create the conversation when no id was supplied. -/
def chatStep1 (env : ChatEnv) (msg : Str) (chunks : List ChunkRow) (tr : List Ev) :
    Resp × List Ev :=
  if msg.isEmpty then
    (⟨400, [], JVal.obj [("error", JVal.s (("Message is required").data))]⟩, tr)
  else
    match env.conversationId with
    | some cid => chatStep2 env chunks tr cid
    | none =>
      match env.createConvResult with
      | .error e => (catchResp (.upstream e), tr ++ [.createConv])
      | .ok cid => chatStep2 env chunks (tr ++ [.createConv]) cid

/-- The POST /chat handler: bump the 10-per-minute and 200-per-day buckets,
retrieve context for the trimmed message, reject a blank message, ensure the
conversation exists, persist the user message, call the completion service,
persist the assistant message, and answer; any throw is converted by the
catch block.  The second component is the ordered trace of collaborator
calls issued. -/
def chatPOST (env : ChatEnv) : Resp × List Ev :=
  match (RateLimiter.bump env.minuteBucket 10 60000 env.now).2 with
  | some r => (catchResp (.rate r), [])
  | none =>
    match (RateLimiter.bump env.dayBucket 200 86400000 env.now).2 with
    | some r => (catchResp (.rate r), [])
    | none =>
      match retrieveContext env (Chunker.trim (env.message.getD [])) 5 with
      | .error e => (catchResp (.upstream e), [.admitted, .retrieveCtx])
      | .ok chunks =>
        chatStep1 env (Chunker.trim (env.message.getD [])) chunks [.admitted, .retrieveCtx]

end Chat

namespace Ingest

/-- The collaborator calls the ingest route can issue, in trace order. -/
inductive Ev where
  | insertDocument
  | embedChunks
  | insertChunks
deriving DecidableEq

/-- Everything the environment decides for one POST /ingest invocation. -/
structure IngestEnv where
  ragAdminKey : Option Str
  adminKeyHeader : Option Str
  title : Option Str
  source : Option Str
  text : Option Str
  docInsertResult : Except Chat.UpErr Str
  embedResult : Except Chat.UpErr Unit
  chunkInsertError : Option Chat.UpErr

/-- JS falsiness of an optional string body field: absent or empty. -/
def isFalsy : Option Str → Bool
  | none => true
  | some s => s.isEmpty

/-- The 401 response of the shared-secret check. -/
def unauthorized : Resp :=
  ⟨401, [], JVal.obj [("error", JVal.s (("Unauthorized").data))]⟩

/-- The POST /ingest handler: require a configured, matching `x-admin-key`
shared secret, require `title` and `text`, insert the document row, chunk
the text with `chunkText(text, 900)`, embed the chunks, insert the chunk
rows, and answer `ok / documentId / chunks`.  The second component is the
ordered trace of collaborator calls issued. -/
def ingestPOST (env : IngestEnv) : Resp × List Ev :=
  match env.ragAdminKey with
  | none => (unauthorized, [])
  | some secret =>
    if secret.isEmpty then (unauthorized, [])
    else if env.adminKeyHeader = some secret then
      if isFalsy env.title || isFalsy env.text then
        (⟨400, [], JVal.obj [("error", JVal.s (("title and text are required").data))]⟩, [])
      else
        match env.docInsertResult with
        | .error e => (Chat.catchResp (.upstream e), [.insertDocument])
        | .ok docId =>
          match env.embedResult with
          | .error e => (Chat.catchResp (.upstream e), [.insertDocument, .embedChunks])
          | .ok _ =>
            match env.chunkInsertError with
            | some e =>
              (Chat.catchResp (.upstream e), [.insertDocument, .embedChunks, .insertChunks])
            | none =>
              (⟨200, [],
                JVal.obj [("ok", JVal.b true), ("documentId", JVal.s docId),
                  ("chunks", JVal.n (Chunker.chunkText (env.text.getD []) 900).length)]⟩,
                [.insertDocument, .embedChunks, .insertChunks])
    else (unauthorized, [])

end Ingest

/-- A chat invocation with fresh buckets, message "hi", no conversation id,
and every collaborator call succeeding with zero retrieved chunks. -/
def envChatOk : Chat.ChatEnv :=
  ⟨none, none, 0, some ("hi").data, none, .ok (), none, some [],
    .ok ("c1").data, none, .ok (some ("ans").data), none⟩

/-- A chat invocation arriving exactly at the minute bucket's `resetAt`
(5000) with the bucket already at the limit of 10. -/
def envChatAtReset : Chat.ChatEnv :=
  ⟨some ⟨10, 5000⟩, none, 5000, some ("hi").data, none, .ok (), none, some [],
    .ok ("c2").data, none, .ok (some ("ans").data), none⟩

/-- A chat invocation rejected 500 ms before the minute bucket resets. -/
def envChatRejected : Chat.ChatEnv :=
  ⟨some ⟨10, 1000⟩, none, 500, some ("hi").data, none, .ok (), none, some [],
    .ok ("c3").data, none, .ok (some ("ans").data), none⟩

/-- A chat invocation continuing conversation "c7" whose retrieval returns
zero rows and whose other collaborator calls succeed. -/
def envChatCtx : Chat.ChatEnv :=
  ⟨none, none, 0, some ("hi").data, some ("c7").data, .ok (), none, some [],
    .ok ("cx").data, none, .ok (some ("ans").data), none⟩

/-- A fully successful ingest invocation: secret "k" supplied, title "t",
text "hello", all inserts succeeding. -/
def envIngestOk : Ingest.IngestEnv :=
  ⟨some ("k").data, some ("k").data, some ("t").data, none, some ("hello").data,
    .ok ("d1").data, .ok (), none⟩

/-- An ingest invocation with the secret configured but the `x-admin-key`
header missing. -/
def envIngestNoKey : Ingest.IngestEnv :=
  ⟨some ("k").data, none, some ("t").data, none, some ("x").data,
    .ok ("d2").data, .ok (), none⟩

/-- An ingest invocation with `RAG_ADMIN_KEY` unset and a header supplied. -/
def envIngestUnset : Ingest.IngestEnv :=
  ⟨none, some ("k").data, some ("t").data, none, some ("x").data,
    .ok ("d3").data, .ok (), none⟩

/-! ## Lemmas about the chunker -/

namespace Chunker

lemma splitGo_skip_eq : ∀ (s : Str) (k : Nat) (acc : Str),
    splitGo k acc s = splitGo 0 acc (s.drop k)
  | [], k, acc => by cases k <;> rfl
  | c :: cs, 0, acc => rfl
  | c :: cs, k + 1, acc => by
    show splitGo k acc cs = _
    rw [splitGo_skip_eq cs k acc, List.drop_succ_cons]

lemma lastNl_eq_none_iff (l : Str) : lastNl l = none ↔ '\n' ∉ l := by
  induction l with
  | nil => simp [lastNl]
  | cons c cs ih =>
    rw [lastNl]
    cases h : lastNl cs with
    | some i =>
      rw [h] at ih
      simp only [reduceCtorEq, false_iff] at ih
      have : '\n' ∈ cs := by
        by_contra hmem
        exact ih hmem
      simp [this]
    | none =>
      rw [h] at ih
      have hcs : '\n' ∉ cs := ih.mp rfl
      by_cases hc : c = '\n'
      · subst hc; simp
      · simp [hc, hcs, Ne.symm hc]

lemma sepMatchLen_eq_none_iff (cs : Str) :
    sepMatchLen cs = none ↔ '\n' ∉ cs.takeWhile isSpace := by
  rw [sepMatchLen, ← lastNl_eq_none_iff]
  cases h : lastNl (cs.takeWhile isSpace) <;> simp

lemma sepMatchLen_isSome_iff (cs : Str) :
    (sepMatchLen cs).isSome = true ↔ '\n' ∈ cs.takeWhile isSpace := by
  constructor
  · intro h
    by_contra hmem
    rw [← sepMatchLen_eq_none_iff] at hmem
    rw [hmem] at h
    simp at h
  · intro h
    cases hs : sepMatchLen cs with
    | none => exact absurd ((sepMatchLen_eq_none_iff cs).mp hs) (by simp [h])
    | some j => rfl

lemma mem_takeWhile_append {a : Char} {p : Char → Bool} :
    ∀ (x y : List Char), a ∈ x.takeWhile p → a ∈ (x ++ y).takeWhile p := by
  intro x y
  induction x with
  | nil => simp [List.takeWhile]
  | cons c x' ih =>
    by_cases hc : p c
    · simp only [List.cons_append, List.takeWhile_cons, hc, if_true, List.mem_cons]
      rintro (rfl | h)
      · exact Or.inl rfl
      · exact Or.inr (ih h)
    · simp [List.takeWhile_cons, hc]

lemma takeWhile_append_of_mem_not {p : Char → Bool} :
    ∀ (x y : List Char), (∃ z ∈ x, p z = false) →
      (x ++ y).takeWhile p = x.takeWhile p := by
  intro x y
  induction x with
  | nil => rintro ⟨z, hz, _⟩; exact absurd hz (List.not_mem_nil z)
  | cons c x' ih =>
    rintro ⟨z, hz, hpz⟩
    by_cases hc : p c
    · have hz' : z ∈ x' := by
        rcases List.mem_cons.mp hz with rfl | h
        · exact absurd hc (by simp [hpz])
        · exact h
      simp only [List.cons_append, List.takeWhile_cons, hc, if_true]
      rw [ih ⟨z, hz', hpz⟩]
    · simp [List.takeWhile_cons, hc]

lemma hasSepAux_iff (s : Str) :
    hasSepAux s = true ↔ ∃ u v, s = u ++ '\n' :: v ∧ (sepMatchLen v).isSome := by
  induction s with
  | nil => simp [hasSepAux]
  | cons c cs ih =>
    rw [hasSepAux, Bool.or_eq_true, Bool.and_eq_true, ih]
    constructor
    · rintro (⟨hc, hs⟩ | ⟨u, v, rfl, hv⟩)
      · exact ⟨[], cs, by rw [List.nil_append, decide_eq_true_eq.mp hc], hs⟩
      · exact ⟨c :: u, v, rfl, hv⟩
    · rintro ⟨u, v, he, hv⟩
      cases u with
      | nil =>
        simp only [List.nil_append, List.cons.injEq] at he
        exact Or.inl ⟨decide_eq_true_eq.mpr he.1, he.2 ▸ hv⟩
      | cons d u' =>
        simp only [List.cons_append, List.cons.injEq] at he
        exact Or.inr ⟨u', v, he.2, hv⟩

lemma sepMatchLen_isSome_append (v y : Str) (h : (sepMatchLen v).isSome) :
    (sepMatchLen (v ++ y)).isSome := by
  rw [sepMatchLen_isSome_iff] at h ⊢
  exact mem_takeWhile_append v y h

lemma hasSepAux_append_left (x y : Str) (h : hasSepAux (x ++ y) = false) :
    hasSepAux x = false := by
  by_contra hx
  rw [← ne_eq, Bool.ne_false_iff, hasSepAux_iff] at hx
  obtain ⟨u, v, rfl, hv⟩ := hx
  have : hasSepAux ((u ++ '\n' :: v) ++ y) = true := by
    rw [hasSepAux_iff]
    exact ⟨u, v ++ y, by simp, sepMatchLen_isSome_append v y hv⟩
  rw [this] at h
  exact absurd h (by decide)

lemma hasSepAux_append_right (x y : Str) (h : hasSepAux (x ++ y) = false) :
    hasSepAux y = false := by
  by_contra hy
  rw [← ne_eq, Bool.ne_false_iff, hasSepAux_iff] at hy
  obtain ⟨u, v, rfl, hv⟩ := hy
  have : hasSepAux (x ++ (u ++ '\n' :: v)) = true := by
    rw [hasSepAux_iff]
    exact ⟨x ++ u, v, by simp, hv⟩
  rw [this] at h
  exact absurd h (by decide)

lemma hasSepAux_take (x : Str) (n : Nat) (h : hasSepAux x = false) :
    hasSepAux (x.take n) = false :=
  hasSepAux_append_left _ (x.drop n) (by rw [List.take_append_drop]; exact h)

lemma dropWhile_eq_trim_append (s : Str) :
    s.dropWhile isSpace =
      trim s ++ ((s.dropWhile isSpace).reverse.takeWhile isSpace).reverse := by
  conv_lhs =>
    rw [← List.reverse_reverse (s.dropWhile isSpace),
      ← List.takeWhile_append_dropWhile (p := isSpace)
        (l := (s.dropWhile isSpace).reverse)]
  rw [List.reverse_append]
  rfl

lemma hasSepAux_trim (s : Str) (h : hasSepAux s = false) :
    hasSepAux (trim s) = false := by
  have h1 : hasSepAux (s.dropWhile isSpace) = false := by
    refine hasSepAux_append_right (s.takeWhile isSpace) _ ?_
    rw [List.takeWhile_append_dropWhile]; exact h
  rw [dropWhile_eq_trim_append] at h1
  exact hasSepAux_append_left _ _ h1

lemma dropWhile_head_not {p : Char → Bool} :
    ∀ (l : List Char) (c : Char) (t : List Char), l.dropWhile p = c :: t → p c = false := by
  intro l
  induction l with
  | nil => intro c t h; simp [List.dropWhile] at h
  | cons a l' ih =>
    intro c t h
    by_cases ha : p a
    · rw [List.dropWhile_cons, if_pos ha] at h
      exact ih c t h
    · rw [List.dropWhile_cons, if_neg ha] at h
      cases h
      simpa using ha

lemma trim_head_not (s : Str) (c : Char) (t : Str) (h : trim s = c :: t) :
    isSpace c = false := by
  have := dropWhile_eq_trim_append s
  rw [h] at this
  exact dropWhile_head_not _ c _ this

lemma trim_reverse_eq (s : Str) :
    (trim s).reverse = ((s.dropWhile isSpace).reverse).dropWhile isSpace := by
  rw [trim, List.reverse_reverse]

lemma trim_last_not (s : Str) (c : Char) (t : Str) (h : (trim s).reverse = c :: t) :
    isSpace c = false := by
  rw [trim_reverse_eq] at h
  exact dropWhile_head_not _ c _ h

lemma dropWhile_eq_self_of_head {p : Char → Bool} (l : List Char)
    (h : ∀ c t, l = c :: t → p c = false) : l.dropWhile p = l := by
  cases l with
  | nil => rfl
  | cons c t => rw [List.dropWhile_cons, if_neg (by simp [h c t rfl])]

lemma trim_trim (s : Str) : trim (trim s) = trim s := by
  have h1 : (trim s).dropWhile isSpace = trim s :=
    dropWhile_eq_self_of_head _ (fun c t h => trim_head_not s c t h)
  have h2 : ((trim s).reverse).dropWhile isSpace = (trim s).reverse := by
    refine dropWhile_eq_self_of_head _ (fun c t h => ?_)
    exact trim_last_not s c t h
  rw [trim, h1, h2, List.reverse_reverse]

end Chunker

namespace Chunker

lemma sepMatchLen_append_none (x y : Str) (h : sepMatchLen (x ++ y) = none) :
    sepMatchLen x = none := by
  rw [sepMatchLen_eq_none_iff] at h ⊢
  intro hm
  exact h (mem_takeWhile_append x y hm)

lemma splitGo_parts_noSep : ∀ (s acc : Str),
    (∀ u v, acc = u ++ '\n' :: v → sepMatchLen (u.reverse ++ s) = none) →
    ∀ p ∈ splitGo 0 acc s, hasSepAux p = false
  | [], acc, hinv, p, hp => by
    rw [splitGo] at hp
    rw [List.mem_singleton] at hp
    subst hp
    by_contra hsep
    rw [← ne_eq, Bool.ne_false_iff, hasSepAux_iff] at hsep
    obtain ⟨u, v, he, hv⟩ := hsep
    have hacc : acc = v.reverse ++ '\n' :: u.reverse := by
      have := congrArg List.reverse he
      rw [List.reverse_reverse, List.reverse_append] at this
      simpa using this
    have := hinv v.reverse u.reverse (by simpa using hacc)
    rw [List.reverse_reverse, List.append_nil] at this
    rw [this] at hv
    exact absurd hv (by decide)
  | c :: cs, acc, hinv, p, hp => by
    have flush : hasSepAux acc.reverse = false := by
      by_contra hsep
      rw [← ne_eq, Bool.ne_false_iff, hasSepAux_iff] at hsep
      obtain ⟨u, v, he, hv⟩ := hsep
      have hacc : acc = v.reverse ++ '\n' :: u.reverse := by
        have := congrArg List.reverse he
        rw [List.reverse_reverse, List.reverse_append] at this
        simpa using this
      have := hinv v.reverse u.reverse (by simpa using hacc)
      rw [List.reverse_reverse] at this
      rw [sepMatchLen_append_none v (c :: cs) this] at hv
      exact absurd hv (by decide)
    have hstep : ∀ (hc : sepMatchLen cs = none ∨ c ≠ '\n'),
        ∀ u v, c :: acc = u ++ '\n' :: v → sepMatchLen (u.reverse ++ cs) = none := by
      intro hc u v he
      cases u with
      | nil =>
        simp only [List.nil_append, List.cons.injEq] at he
        rcases hc with hnone | hne
        · simpa using hnone
        · exact absurd he.1 hne
      | cons d u' =>
        simp only [List.cons_append, List.cons.injEq] at he
        have := hinv u' v he.2
        rw [he.1] at this
        rw [List.reverse_cons, List.append_assoc]
        simpa using this
    rw [splitGo] at hp
    by_cases hc : c = '\n'
    · rw [if_pos hc] at hp
      cases hm : sepMatchLen cs with
      | some n =>
        rw [hm] at hp
        rcases List.mem_cons.mp hp with rfl | hp'
        · exact flush
        · rw [splitGo_skip_eq] at hp'
          refine splitGo_parts_noSep (cs.drop n) [] ?_ p hp'
          intro u v he
          exact absurd he (by simp)
      | none =>
        rw [hm] at hp
        exact splitGo_parts_noSep cs (c :: acc) (hstep (Or.inl hm)) p hp
    · rw [if_neg hc] at hp
      exact splitGo_parts_noSep cs (c :: acc) (hstep (Or.inr hc)) p hp
termination_by s => s.length
decreasing_by
  all_goals try simp only [List.length_drop, List.length_cons]
  all_goals omega

/-- Every part produced by the paragraph split contains no separator match. -/
lemma splitParas_noSep (s : Str) : ∀ p ∈ splitParas s, hasSepAux p = false := by
  refine splitGo_parts_noSep s [] ?_
  intro u v he
  exact absurd he (by simp)

lemma splitGo_of_noSep : ∀ (s acc : Str), hasSepAux s = false →
    splitGo 0 acc s = [acc.reverse ++ s]
  | [], acc, h => by rw [splitGo, List.append_nil]
  | c :: cs, acc, h => by
    rw [hasSepAux, Bool.or_eq_false_iff, Bool.and_eq_false_iff] at h
    obtain ⟨h1, h2⟩ := h
    rw [splitGo]
    by_cases hc : c = '\n'
    · rcases h1 with h1 | h1
      · rw [decide_eq_false_iff_not] at h1
        exact absurd hc h1
      · cases hm : sepMatchLen cs with
        | some j => rw [hm] at h1; simp at h1
        | none =>
          rw [if_pos hc]
          show splitGo 0 (c :: acc) cs = _
          rw [splitGo_of_noSep cs (c :: acc) h2, List.reverse_cons,
            List.append_assoc, List.singleton_append]
    · rw [if_neg hc, splitGo_of_noSep cs (c :: acc) h2, List.reverse_cons,
        List.append_assoc, List.singleton_append]

/-- Splitting a string with no separator match returns it unchanged. -/
lemma splitParas_of_noSep (s : Str) (h : hasSepAux s = false) : splitParas s = [s] := by
  rw [splitParas, splitGo_of_noSep s [] h]
  rfl

end Chunker

namespace Chunker

lemma isSpace_nl : isSpace '\n' = true := by decide

lemma splitGo_block : ∀ (b r acc : Str),
    hasSepAux b = false →
    (∀ z t, b.reverse = z :: t → isSpace z = false) →
    b ≠ [] →
    (∀ z t, r = z :: t → isSpace z = false) →
    r ≠ [] →
    splitGo 0 acc (b ++ '\n' :: '\n' :: r) = (acc.reverse ++ b) :: splitGo 0 [] r
  | [], r, acc, _, _, hne, _, _ => absurd rfl hne
  | x :: b', r, acc, hsep, hlast, _, hr, hrne => by
    rw [hasSepAux, Bool.or_eq_false_iff, Bool.and_eq_false_iff] at hsep
    obtain ⟨h1, h2⟩ := hsep
    cases b' with
    | nil =>
      have hx : isSpace x = false := hlast x [] rfl
      have hxn : x ≠ '\n' := by
        intro h
        rw [h, isSpace_nl] at hx
        exact absurd hx (by decide)
      obtain ⟨z, t, rfl⟩ : ∃ z t, r = z :: t := by
        cases r with
        | nil => exact absurd rfl hrne
        | cons z t => exact ⟨z, t, rfl⟩
      have hz : isSpace z = false := hr z t rfl
      have hsm : sepMatchLen ('\n' :: z :: t) = some 1 := by
        rw [sepMatchLen, List.takeWhile_cons, isSpace_nl, if_pos rfl,
          List.takeWhile_cons, hz]
        rfl
      show splitGo 0 acc (x :: '\n' :: '\n' :: z :: t) = _
      rw [splitGo, if_neg hxn, splitGo, if_pos rfl, hsm]
      show (x :: acc).reverse :: splitGo 0 [] (z :: t) = _
      rw [List.reverse_cons]
    | cons y b'' =>
      have hlast' : ∀ z t, (y :: b'').reverse = z :: t → isSpace z = false := by
        intro z t h'
        refine hlast z (t ++ [x]) ?_
        rw [List.reverse_cons, h', List.cons_append]
      have hrec := splitGo_block (y :: b'') r (x :: acc) h2 hlast' (by simp) hr hrne
      have hone : ∃ z t, (y :: b'').reverse = z :: t := by
        have hne : (y :: b'').reverse ≠ [] := by simp
        cases hv : (y :: b'').reverse with
        | nil => exact absurd hv hne
        | cons z t => exact ⟨z, t, rfl⟩
      obtain ⟨z, t, hz⟩ := hone
      have hzmem : z ∈ y :: b'' := by
        rw [← List.mem_reverse, hz]
        exact List.mem_cons_self z t
      have hzsp : isSpace z = false := hlast' z t hz
      show splitGo 0 acc (x :: ((y :: b'') ++ '\n' :: '\n' :: r)) = _
      rw [splitGo]
      by_cases hx : x = '\n'
      · have hnone : sepMatchLen ((y :: b'') ++ '\n' :: '\n' :: r) = none := by
          rw [sepMatchLen_eq_none_iff,
            takeWhile_append_of_mem_not (y :: b'') ('\n' :: '\n' :: r) ⟨z, hzmem, hzsp⟩]
          rw [← sepMatchLen_eq_none_iff]
          rcases h1 with h1 | h1
          · rw [decide_eq_false_iff_not] at h1
            exact absurd hx h1
          · cases hm : sepMatchLen (y :: b'') with
            | some j => rw [hm] at h1; simp at h1
            | none => rfl
        rw [if_pos hx, hnone, hrec, List.reverse_cons]
        rw [List.append_assoc, List.singleton_append]
      · rw [if_neg hx, hrec, List.reverse_cons, List.append_assoc, List.singleton_append]

lemma joinSep_cons_cons (c d : Str) (ds : List Str) :
    joinSep (c :: d :: ds) = c ++ '\n' :: '\n' :: joinSep (d :: ds) := by
  show c ++ sep ++ joinSep (d :: ds) = _
  simp [sep]

lemma joinSep_cons_eq_append (c : Str) (cs : List Str) :
    ∃ X, joinSep (c :: cs) = c ++ X := by
  cases cs with
  | nil => exact ⟨[], (List.append_nil c).symm⟩
  | cons d ds => exact ⟨'\n' :: '\n' :: joinSep (d :: ds), joinSep_cons_cons c d ds⟩

lemma GoodBlock_head_not {b : Str} (hb : GoodBlock b) :
    ∀ z t, b = z :: t → isSpace z = false := by
  intro z t h
  refine trim_head_not b z t ?_
  rw [hb.2.1, h]

lemma GoodBlock_last_not {b : Str} (hb : GoodBlock b) :
    ∀ z t, b.reverse = z :: t → isSpace z = false := by
  intro z t h
  refine trim_last_not b z t ?_
  rw [hb.2.1, h]

lemma splitParas_joinSep : ∀ (bs : List Str), bs ≠ [] → (∀ b ∈ bs, GoodBlock b) →
    splitParas (joinSep bs) = bs
  | [], h, _ => absurd rfl h
  | [b], _, hb => by
    have hgb := hb b (List.mem_singleton.mpr rfl)
    show splitParas b = [b]
    exact splitParas_of_noSep b hgb.2.2
  | b :: b2 :: bs', _, hb => by
    have hgb := hb b (List.mem_cons_self b _)
    have hgb2 := hb b2 (by simp)
    have hrec := splitParas_joinSep (b2 :: bs') (by simp)
      (fun x hx => hb x (List.mem_cons_of_mem b hx))
    obtain ⟨X, hX⟩ := joinSep_cons_eq_append b2 bs'
    have hr : ∀ z t, joinSep (b2 :: bs') = z :: t → isSpace z = false := by
      intro z t h
      obtain ⟨w, u, hw⟩ : ∃ w u, b2 = w :: u := by
        cases hv : b2 with
        | nil => exact absurd hv hgb2.1
        | cons w u => exact ⟨w, u, rfl⟩
      rw [hX, hw, List.cons_append, List.cons.injEq] at h
      rw [← h.1]
      exact GoodBlock_head_not hgb2 w u hw
    have hrne : joinSep (b2 :: bs') ≠ [] := by
      rw [hX]
      simp [hgb2.1]
    rw [joinSep_cons_cons b b2 bs', splitParas]
    rw [splitGo_block b (joinSep (b2 :: bs')) [] hgb.2.2 (GoodBlock_last_not hgb)
      hgb.1 hr hrne]
    rw [List.reverse_nil, List.nil_append]
    exact congrArg (List.cons b) hrec

end Chunker

namespace Chunker

lemma isEmpty_eq_false_iff (l : Str) : l.isEmpty = false ↔ l ≠ [] := by
  cases l <;> simp

lemma length_append_sep (a b : Str) :
    (a ++ sep ++ b).length = a.length + 2 + b.length := by
  simp [sep]
  omega

lemma chunkLoop_ne_nil (mc : Nat) : ∀ (ps : List Str) (current : Str),
    ∀ c ∈ chunkLoop mc ps current, c ≠ []
  | [], current, c, hc => by
    rw [chunkLoop] at hc
    by_cases h : current.isEmpty
    · rw [if_pos h] at hc
      exact absurd hc (List.not_mem_nil c)
    · rw [if_neg h] at hc
      rw [List.mem_singleton] at hc
      subst hc
      exact (isEmpty_eq_false_iff c).mp (by simpa using h)
  | p :: ps, current, c, hc => by
    simp only [chunkLoop] at hc
    by_cases hb : (trim p).isEmpty
    · rw [if_pos hb] at hc
      exact chunkLoop_ne_nil mc ps current c hc
    · rw [if_neg hb] at hc
      by_cases hfit : (current ++ sep ++ trim p).length ≤ mc
      · rw [if_pos hfit] at hc
        exact chunkLoop_ne_nil mc ps _ c hc
      · rw [if_neg hfit] at hc
        rcases List.mem_append.mp hc with hc' | hc'
        · by_cases hce : current.isEmpty
          · rw [if_pos hce] at hc'
            exact absurd hc' (List.not_mem_nil c)
          · rw [if_neg hce] at hc'
            rw [List.mem_singleton] at hc'
            subst hc'
            exact (isEmpty_eq_false_iff c).mp (by simpa using hce)
        · exact chunkLoop_ne_nil mc ps _ c hc'

lemma chunkLoop_length (mc : Nat) : ∀ (ps : List Str) (current : Str),
    current.length ≤ mc → ∀ c ∈ chunkLoop mc ps current, c.length ≤ mc
  | [], current, hcur, c, hc => by
    rw [chunkLoop] at hc
    by_cases h : current.isEmpty
    · rw [if_pos h] at hc
      exact absurd hc (List.not_mem_nil c)
    · rw [if_neg h] at hc
      rw [List.mem_singleton] at hc
      subst hc
      exact hcur
  | p :: ps, current, hcur, c, hc => by
    simp only [chunkLoop] at hc
    by_cases hb : (trim p).isEmpty
    · rw [if_pos hb] at hc
      exact chunkLoop_length mc ps current hcur c hc
    · rw [if_neg hb] at hc
      by_cases hfit : (current ++ sep ++ trim p).length ≤ mc
      · rw [if_pos hfit] at hc
        refine chunkLoop_length mc ps _ ?_ c hc
        rw [length_append_sep] at hfit
        by_cases hce : current.isEmpty
        · rw [if_pos hce]
          omega
        · rw [if_neg hce, length_append_sep]
          omega
      · rw [if_neg hfit] at hc
        rcases List.mem_append.mp hc with hc' | hc'
        · by_cases hce : current.isEmpty
          · rw [if_pos hce] at hc'
            exact absurd hc' (List.not_mem_nil c)
          · rw [if_neg hce] at hc'
            rw [List.mem_singleton] at hc'
            subst hc'
            exact hcur
        · refine chunkLoop_length mc ps _ ?_ c hc'
          by_cases hbl : (trim p).length ≤ mc
          · rw [if_pos hbl]
            exact hbl
          · rw [if_neg hbl, List.length_take]
            omega

lemma chunkLoop_self_mem (mc : Nat) (hmc : 1 ≤ mc) : ∀ (ps : List Str) (current : Str),
    current.length = mc → current ∈ chunkLoop mc ps current
  | [], current, hl => by
    rw [chunkLoop, if_neg]
    · exact List.mem_singleton.mpr rfl
    · intro h
      have hnil : current = [] := by simpa using h
      rw [hnil] at hl
      simp at hl
      omega
  | p :: ps, current, hl => by
    have hcne : current.isEmpty = false := by
      rw [isEmpty_eq_false_iff]
      intro h
      rw [h] at hl
      simp at hl
      omega
    simp only [chunkLoop]
    by_cases hb : (trim p).isEmpty
    · rw [if_pos hb]
      exact chunkLoop_self_mem mc hmc ps current hl
    · rw [if_neg hb]
      have hbl : 1 ≤ (trim p).length := by
        have hne : trim p ≠ [] := by simpa using hb
        have := List.length_pos.mpr hne
        omega
      have hnotfit : ¬ (current ++ sep ++ trim p).length ≤ mc := by
        rw [length_append_sep]
        omega
      rw [if_neg hnotfit]
      refine List.mem_append.mpr (Or.inl ?_)
      rw [hcne]
      exact List.mem_singleton.mpr rfl

lemma chunkLoop_overlong (mc : Nat) (hmc : 1 ≤ mc) : ∀ (ps : List Str) (current p : Str),
    p ∈ ps → mc < (trim p).length → (trim p).take mc ∈ chunkLoop mc ps current
  | [], _, p, hp, _ => absurd hp (List.not_mem_nil p)
  | q :: ps, current, p, hp, hlong => by
    rcases List.mem_cons.mp hp with rfl | hp'
    · simp only [chunkLoop]
      have hbne : ¬ (trim p).isEmpty = true := by
        intro h
        have hnil : trim p = [] := by simpa using h
        rw [hnil] at hlong
        simp at hlong
      rw [if_neg hbne]
      have hnotfit : ¬ (current ++ sep ++ trim p).length ≤ mc := by
        rw [length_append_sep]
        omega
      rw [if_neg hnotfit]
      refine List.mem_append.mpr (Or.inr ?_)
      have hnotle : ¬ (trim p).length ≤ mc := by omega
      rw [if_neg hnotle]
      refine chunkLoop_self_mem mc hmc ps ((trim p).take mc) ?_
      rw [List.length_take]
      omega
    · simp only [chunkLoop]
      by_cases hb : (trim q).isEmpty
      · rw [if_pos hb]
        exact chunkLoop_overlong mc hmc ps current p hp' hlong
      · rw [if_neg hb]
        by_cases hfit : (current ++ sep ++ trim q).length ≤ mc
        · rw [if_pos hfit]
          exact chunkLoop_overlong mc hmc ps _ p hp' hlong
        · rw [if_neg hfit]
          exact List.mem_append.mpr (Or.inr (chunkLoop_overlong mc hmc ps _ p hp' hlong))

end Chunker

namespace Chunker

lemma joinSep_ne_nil : ∀ (cs : List Str), cs ≠ [] → (∀ c ∈ cs, c ≠ []) → joinSep cs ≠ []
  | [], h, _ => absurd rfl h
  | [c], _, hc => by
    show c ≠ []
    exact hc c (List.mem_singleton.mpr rfl)
  | c :: d :: ds, _, hc => by
    rw [joinSep_cons_cons]
    intro h
    rcases List.append_eq_nil.mp h with ⟨-, h2⟩
    simp at h2

lemma joinNE_nil_left (b : Str) : joinNE [] b = b := rfl

lemma joinNE_nil_right (a : Str) : joinNE a [] = a := by
  by_cases h : a.isEmpty
  · have : a = [] := by simpa using h
    subst this
    rfl
  · simp [joinNE, h]

lemma joinNE_eq_append (a b : Str) (ha : a ≠ []) (hb : b ≠ []) :
    joinNE a b = a ++ '\n' :: '\n' :: b := by
  have ha' : a.isEmpty = false := (isEmpty_eq_false_iff a).mpr ha
  have hb' : b.isEmpty = false := (isEmpty_eq_false_iff b).mpr hb
  simp [joinNE, ha', hb', sep]

lemma joinNE_assoc (a b c : Str) : joinNE (joinNE a b) c = joinNE a (joinNE b c) := by
  by_cases ha : a = []
  · subst ha
    rw [joinNE_nil_left, joinNE_nil_left]
  · by_cases hb : b = []
    · subst hb
      rw [joinNE_nil_right, joinNE_nil_left]
    · by_cases hc : c = []
      · subst hc
        rw [joinNE_nil_right, joinNE_nil_right]
      · have hab : a ++ '\n' :: '\n' :: b ≠ [] := by simp [ha]
        have hbc : b ++ '\n' :: '\n' :: c ≠ [] := by simp [hb]
        rw [joinNE_eq_append a b ha hb, joinNE_eq_append b c hb hc,
          joinNE_eq_append _ c hab hc, joinNE_eq_append a _ ha hbc,
          List.append_assoc]
        rfl

lemma joinSep_cons_joinNE (b : Str) (l : List Str) (hb : b ≠ [])
    (hl : ∀ x ∈ l, x ≠ []) : joinSep (b :: l) = joinNE b (joinSep l) := by
  cases l with
  | nil =>
    show b = joinNE b (joinSep [])
    rw [show joinSep [] = [] from rfl, joinNE_nil_right]
  | cons d ds =>
    rw [joinSep_cons_cons,
      joinNE_eq_append b _ hb (joinSep_ne_nil (d :: ds) (by simp) hl)]

lemma truncate_ne_nil (mc : Nat) (hmc : 1 ≤ mc) (b : Str) (hb : b ≠ []) :
    truncate mc b ≠ [] := by
  by_cases hle : b.length ≤ mc
  · rw [truncate, if_pos hle]
    exact hb
  · rw [truncate, if_neg hle]
    intro h
    have hlen := congrArg List.length h
    rw [List.length_take] at hlen
    simp at hlen
    rcases hlen with h0 | h0 <;> [omega; exact hb h0]

lemma nonblank_mem_ne_nil (ps : List Str) : ∀ b ∈ nonblankBlocks ps, b ≠ [] := by
  intro b hb
  have := List.of_mem_filter hb
  simpa using this

lemma nonblankBlocks_cons_blank (p : Str) (ps : List Str)
    (h : (trim p).isEmpty = true) : nonblankBlocks (p :: ps) = nonblankBlocks ps := by
  simp [nonblankBlocks, List.filter_cons, h]

lemma nonblankBlocks_cons (p : Str) (ps : List Str) (h : (trim p).isEmpty = false) :
    nonblankBlocks (p :: ps) = trim p :: nonblankBlocks ps := by
  simp [nonblankBlocks, List.filter_cons, h]

lemma chunkLoop_join (mc : Nat) (hmc : 1 ≤ mc) : ∀ (ps : List Str) (current : Str),
    joinSep (chunkLoop mc ps current) =
      joinNE current (joinSep ((nonblankBlocks ps).map (truncate mc)))
  | [], current => by
    rw [chunkLoop]
    by_cases hce : current.isEmpty
    · rw [if_pos hce]
      have : current = [] := by simpa using hce
      subst this
      rfl
    · rw [if_neg hce]
      simp [nonblankBlocks, joinSep, joinNE_nil_right]
  | p :: ps, current => by
    simp only [chunkLoop]
    by_cases hb : (trim p).isEmpty
    · rw [if_pos hb, chunkLoop_join mc hmc ps current, nonblankBlocks_cons_blank p ps hb]
    · rw [if_neg hb, nonblankBlocks_cons p ps (by simpa using hb)]
      have hbne : trim p ≠ [] := by simpa using hb
      have hrestne : ∀ x ∈ (nonblankBlocks ps).map (truncate mc), x ≠ [] := by
        intro x hx
        obtain ⟨y, hy, rfl⟩ := List.mem_map.mp hx
        exact truncate_ne_nil mc hmc y (nonblank_mem_ne_nil ps y hy)
      by_cases hfit : (current ++ sep ++ trim p).length ≤ mc
      · rw [if_pos hfit, chunkLoop_join mc hmc ps _]
        have hcur' : (if current.isEmpty then trim p else current ++ sep ++ trim p) =
            joinNE current (trim p) := by
          by_cases hce : current.isEmpty <;>
            simp [joinNE, hce, (isEmpty_eq_false_iff (trim p)).mpr hbne]
        rw [hcur', joinNE_assoc]
        congr 1
        have htr : truncate mc (trim p) = trim p := by
          rw [truncate, if_pos ?hle]
          case hle =>
            rw [length_append_sep] at hfit
            omega
        rw [List.map_cons, htr, joinSep_cons_joinNE (trim p) _ hbne hrestne]
      · rw [if_neg hfit]
        have hnewcur : (if (trim p).length ≤ mc then trim p else (trim p).take mc) =
            truncate mc (trim p) := rfl
        rw [hnewcur, List.map_cons,
          joinSep_cons_joinNE (truncate mc (trim p)) _
            (truncate_ne_nil mc hmc _ hbne) hrestne]
        by_cases hce : current.isEmpty
        · rw [if_pos hce, List.nil_append]
          have hc0 : current = [] := by simpa using hce
          rw [chunkLoop_join mc hmc ps _, hc0, joinNE_nil_left]
        · rw [if_neg hce]
          have hc1 : current ≠ [] := by simpa using hce
          rw [List.singleton_append,
            joinSep_cons_joinNE current _ hc1 (chunkLoop_ne_nil mc ps _),
            chunkLoop_join mc hmc ps _]

end Chunker

namespace Chunker

lemma sep_append (x : Str) : sep ++ x = '\n' :: '\n' :: x := by
  simp [sep]

lemma joinSep_singleton (c : Str) : joinSep [c] = c := rfl

lemma joinSep_length_cons_le (b : Str) (l : List Str) :
    b.length ≤ (joinSep (b :: l)).length := by
  cases l with
  | nil => exact le_refl _
  | cons d ds =>
    rw [joinSep_cons_cons]
    simp

lemma joinSep_append_single : ∀ (bs : List Str), bs ≠ [] → ∀ b,
    joinSep (bs ++ [b]) = joinSep bs ++ sep ++ b
  | [], h, _ => absurd rfl h
  | [b0], _, b => by
    show joinSep [b0, b] = _
    rw [joinSep_cons_cons, joinSep_singleton, joinSep_singleton]
    simp [sep, List.append_assoc]
  | b0 :: b1 :: bs', _, b => by
    have hrec := joinSep_append_single (b1 :: bs') (by simp) b
    rw [List.cons_append] at hrec
    show joinSep (b0 :: b1 :: (bs' ++ [b])) = joinSep (b0 :: b1 :: bs') ++ sep ++ b
    rw [joinSep_cons_cons, joinSep_cons_cons, hrec]
    simp [sep, List.append_assoc]

lemma GoodChunk_single (mc : Nat) (b : Str) (h : GoodBlock b) : GoodChunk mc b :=
  Or.inl ⟨[b], by simp, by
    intro x hx
    rw [List.mem_singleton] at hx
    subst hx
    exact h, rfl⟩

lemma chunkLoop_good (mc : Nat) : ∀ (ps : List Str) (current : Str),
    (∀ p ∈ ps, hasSepAux p = false) →
    (current = [] ∨ GoodChunk mc current) →
    ∀ c ∈ chunkLoop mc ps current, GoodChunk mc c
  | [], current, hps, hcur, c, hc => by
    rw [chunkLoop] at hc
    by_cases h : current.isEmpty
    · rw [if_pos h] at hc
      exact absurd hc (List.not_mem_nil c)
    · rw [if_neg h] at hc
      rw [List.mem_singleton] at hc
      subst hc
      rcases hcur with h0 | hg
      · exact absurd (by rw [h0]; rfl) h
      · exact hg
  | p :: ps, current, hps, hcur, c, hc => by
    have hps' : ∀ q ∈ ps, hasSepAux q = false :=
      fun q hq => hps q (List.mem_cons_of_mem p hq)
    have hpsep : hasSepAux p = false := hps p (List.mem_cons_self p ps)
    simp only [chunkLoop] at hc
    by_cases hb : (trim p).isEmpty
    · rw [if_pos hb] at hc
      exact chunkLoop_good mc ps current hps' hcur c hc
    · rw [if_neg hb] at hc
      have hbne : trim p ≠ [] := by simpa using hb
      have hgb : GoodBlock (trim p) := ⟨hbne, trim_trim p, hasSepAux_trim p hpsep⟩
      by_cases hfit : (current ++ sep ++ trim p).length ≤ mc
      · rw [if_pos hfit] at hc
        refine chunkLoop_good mc ps _ hps' (Or.inr ?_) c hc
        by_cases hce : current.isEmpty
        · rw [if_pos hce]
          exact GoodChunk_single mc (trim p) hgb
        · rw [if_neg hce]
          rcases hcur with h0 | hgc
          · exact absurd (by rw [h0]; rfl) hce
          rcases hgc with ⟨bs, hbs_ne, hbs_good, rfl⟩ | ⟨b0, hb0, hlt, rfl⟩
          · left
            refine ⟨bs ++ [trim p], by simp [hbs_ne], ?_, ?_⟩
            · intro x hx
              rcases List.mem_append.mp hx with hx' | hx'
              · exact hbs_good x hx'
              · rw [List.mem_singleton] at hx'
                subst hx'
                exact hgb
            · rw [joinSep_append_single bs hbs_ne (trim p)]
          · exfalso
            rw [length_append_sep, List.length_take] at hfit
            have h1 : 1 ≤ (trim p).length := List.length_pos.mpr hbne
            omega
      · rw [if_neg hfit] at hc
        rcases List.mem_append.mp hc with hc' | hc'
        · by_cases hce : current.isEmpty
          · rw [if_pos hce] at hc'
            exact absurd hc' (List.not_mem_nil c)
          · rw [if_neg hce] at hc'
            rw [List.mem_singleton] at hc'
            subst hc'
            rcases hcur with h0 | hg
            · exact absurd (by rw [h0]; rfl) hce
            · exact hg
        · refine chunkLoop_good mc ps _ hps' (Or.inr ?_) c hc'
          by_cases hble : (trim p).length ≤ mc
          · rw [if_pos hble]
            exact GoodChunk_single mc (trim p) hgb
          · rw [if_neg hble]
            exact Or.inr ⟨trim p, hgb, by omega, rfl⟩

/-- Every chunk emitted by `chunkText` has the `GoodChunk` shape. -/
lemma chunkText_good (text : Str) (mc : Nat) (c : Str) (hc : c ∈ chunkText text mc) :
    GoodChunk mc c := by
  refine chunkLoop_good mc _ [] ?_ (Or.inl rfl) c hc
  intro p hp
  exact splitParas_noSep _ p hp

end Chunker

namespace Chunker

lemma not_isEmpty_of_ne (l : Str) (h : l ≠ []) : ¬ l.isEmpty = true := by
  rw [(isEmpty_eq_false_iff l).mpr h]
  simp

lemma chunkLoop_all_fit (mc : Nat) : ∀ (bs : List Str) (current : Str),
    (∀ b ∈ bs, b ≠ [] ∧ trim b = b) →
    ¬(current = [] ∧ bs = []) →
    (joinNE current (joinSep bs)).length ≤ mc →
    chunkLoop mc bs current = [joinNE current (joinSep bs)]
  | [], current, _, hne, hlen => by
    have hcne : current ≠ [] := fun h => hne ⟨h, rfl⟩
    rw [chunkLoop, if_neg (not_isEmpty_of_ne current hcne)]
    rw [show joinSep ([] : List Str) = [] from rfl, joinNE_nil_right]
  | b :: bs', current, hgood, _, hlen => by
    obtain ⟨hbne, hbtrim⟩ := hgood b (List.mem_cons_self b bs')
    have hgood' : ∀ x ∈ bs', x ≠ [] ∧ trim x = x :=
      fun x hx => hgood x (List.mem_cons_of_mem b hx)
    have hbs'ne : ∀ x ∈ bs', x ≠ [] := fun x hx => (hgood' x hx).1
    have hallne : ∀ x ∈ b :: bs', x ≠ [] := fun x hx => (hgood x hx).1
    have hjoin_ne : joinSep (b :: bs') ≠ [] := joinSep_ne_nil _ (by simp) hallne
    have hjcons : joinSep (b :: bs') = joinNE b (joinSep bs') :=
      joinSep_cons_joinNE b bs' hbne hbs'ne
    simp only [chunkLoop]
    rw [hbtrim, if_neg (not_isEmpty_of_ne b hbne)]
    by_cases hcne : current = []
    · subst hcne
      rw [joinNE_nil_left] at hlen ⊢
      by_cases hfit : (([] : Str) ++ sep ++ b).length ≤ mc
      · rw [if_pos hfit]
        rw [show (if ([] : Str).isEmpty then b else ([] : Str) ++ sep ++ b) = b from rfl]
        rw [chunkLoop_all_fit mc bs' b hgood' (by simp [hbne]) ?hl2]
        · rw [hjcons]
        case hl2 =>
          rw [← hjcons]
          exact hlen
      · rw [if_neg hfit]
        have hfit' : ¬ 2 + b.length ≤ mc := by
          rw [length_append_sep] at hfit
          simp only [List.length_nil] at hfit
          omega
        have hbs0 : bs' = [] := by
          by_contra hbs
          obtain ⟨d, ds, rfl⟩ : ∃ d ds, bs' = d :: ds := by
            cases bs' with
            | nil => exact absurd rfl hbs
            | cons d ds => exact ⟨d, ds, rfl⟩
          rw [joinSep_cons_cons] at hlen
          simp [List.length_append] at hlen
          omega
        subst hbs0
        rw [joinSep_singleton] at hlen ⊢
        rw [if_pos hlen]
        rw [chunkLoop, if_neg (not_isEmpty_of_ne b hbne)]
        rfl
    · have hjne : joinNE current (joinSep (b :: bs')) =
          current ++ '\n' :: '\n' :: joinSep (b :: bs') :=
        joinNE_eq_append current _ hcne hjoin_ne
      have hfit : (current ++ sep ++ b).length ≤ mc := by
        have h1 : b.length ≤ (joinSep (b :: bs')).length := joinSep_length_cons_le b bs'
        rw [hjne] at hlen
        rw [length_append_sep]
        simp [List.length_append] at hlen
        omega
      rw [if_pos hfit]
      rw [if_neg (not_isEmpty_of_ne current hcne)]
      have hcurb : current ++ sep ++ b = joinNE current b := by
        rw [joinNE_eq_append current b hcne hbne]
        simp [sep, List.append_assoc]
      have hcsb_ne : current ++ sep ++ b ≠ [] := by
        intro h
        rcases List.append_eq_nil.mp h with ⟨h1, -⟩
        rcases List.append_eq_nil.mp h1 with ⟨h2, -⟩
        exact hcne h2
      rw [chunkLoop_all_fit mc bs' (current ++ sep ++ b) hgood'
        (fun hh => hcsb_ne hh.1) ?hl3]
      · congr 1
        rw [hcurb, joinNE_assoc, ← hjcons]
      case hl3 =>
        rw [hcurb, joinNE_assoc, ← hjcons]
        exact hlen

end Chunker

/-! ## Lemmas about the rate limiter -/

namespace RateLimiter

lemma ceilSec_pos (m : Nat) (h : 1 ≤ m) : 0 < ceilSec m := by
  rw [ceilSec]
  exact Nat.div_pos (by omega) (by norm_num)

lemma run_window (limit windowMs R : Nat) : ∀ (ts : List Nat) (k : Nat),
    (∀ t ∈ ts, t ≤ R) → k + ts.length ≤ limit →
    run limit windowMs (some ⟨k, R⟩) ts =
      (some ⟨k + ts.length, R⟩, List.replicate ts.length none)
  | [], k, _, _ => by simp [run]
  | t :: ts, k, hts, hcount => by
    have ht : t ≤ R := hts t (List.mem_cons_self t ts)
    have hcount' : k + 1 + ts.length ≤ limit := by
      simp [List.length_cons] at hcount
      omega
    have hbump : bump (some ⟨k, R⟩) limit windowMs t = (⟨k + 1, R⟩, none) := by
      rw [bump, if_neg (by omega : ¬ t > R), if_neg (by omega : ¬ k + 1 > limit)]
    have hrec := run_window limit windowMs R ts (k + 1)
      (fun x hx => hts x (List.mem_cons_of_mem t hx)) hcount'
    simp only [run, hbump, hrec]
    simp only [List.length_cons, List.replicate_succ]
    rw [show k + 1 + ts.length = k + (ts.length + 1) from by omega]

lemma run_append (limit windowMs : Nat) : ∀ (xs ys : List Nat) (st : Option Bucket),
    run limit windowMs st (xs ++ ys) =
      ((run limit windowMs (run limit windowMs st xs).1 ys).1,
        (run limit windowMs st xs).2 ++
          (run limit windowMs (run limit windowMs st xs).1 ys).2)
  | [], ys, st => by simp [run]
  | x :: xs, ys, st => by
    have hrec := run_append limit windowMs xs ys (some (bump st limit windowMs x).1)
    simp only [List.cons_append, run, List.append_eq, hrec]

lemma bump_reject (b : Option Bucket) (limit win now r : Nat)
    (h : (bump b limit win now).2 = some r) :
    ∃ bk, b = some bk ∧ now ≤ bk.resetAt ∧ r = ceilSec (bk.resetAt - now) := by
  cases b with
  | none => simp [bump] at h
  | some bk =>
    rw [bump] at h
    by_cases h1 : now > bk.resetAt
    · rw [if_pos h1] at h
      simp at h
    · rw [if_neg h1] at h
      by_cases h2 : bk.count + 1 > limit
      · rw [if_pos h2] at h
        simp at h
        exact ⟨bk, rfl, by omega, h.symm⟩
      · rw [if_neg h2] at h
        simp at h

end RateLimiter

/-! ## The claims -/

/-- C2: for every input text and every positive `maxChars`, every chunk
returned by `chunkText` has length at most `maxChars`, and a trimmed
paragraph whose own length exceeds `maxChars` is emitted as a chunk truncated
to exactly `maxChars` characters. -/
theorem chunk_bounds (text : Str) (maxChars : Nat) (hpos : 0 < maxChars) :
    (∀ c ∈ Chunker.chunkText text maxChars, c.length ≤ maxChars) ∧
    (∀ p ∈ Chunker.splitParas (Chunker.trim (Chunker.replaceCRLF text)),
      maxChars < (Chunker.trim p).length →
        (Chunker.trim p).take maxChars ∈ Chunker.chunkText text maxChars ∧
        ((Chunker.trim p).take maxChars).length = maxChars) := by
  constructor
  · intro c hc
    exact Chunker.chunkLoop_length maxChars _ [] (by simp) c hc
  · intro p hp hlong
    refine ⟨Chunker.chunkLoop_overlong maxChars hpos _ [] p hp hlong, ?_⟩
    rw [List.length_take]
    omega

/-- Witness for C2 at `text = "abcdefg"`, `maxChars = 3`. -/
theorem chunk_bounds_witness :
    (∀ c ∈ Chunker.chunkText (("abcdefg").data) 3, c.length ≤ 3) ∧
    (∀ p ∈ Chunker.splitParas (Chunker.trim (Chunker.replaceCRLF (("abcdefg").data))),
      3 < (Chunker.trim p).length →
        (Chunker.trim p).take 3 ∈ Chunker.chunkText (("abcdefg").data) 3 ∧
        ((Chunker.trim p).take 3).length = 3) :=
  chunk_bounds (("abcdefg").data) 3 (by decide)

/-- C5 counterexample: at `text = "abcdefgh"`, `maxChars = 5`, the single
paragraph is truncated, so the concatenation of the chunks is "abcde", not
the non-blank input paragraph "abcdefgh". -/
theorem chunk_concat_cex :
    Chunker.joinSep (Chunker.chunkText (("abcdefgh").data) 5) ≠
      Chunker.joinSep (Chunker.nonblankBlocks
        (Chunker.splitParas (Chunker.trim (Chunker.replaceCRLF (("abcdefgh").data))))) := by
  decide

/-- C5 as amended: for every input text and positive `maxChars`, joining the
chunks with blank lines reproduces the non-blank trimmed input paragraphs in
order, except that each over-long paragraph appears truncated to `maxChars`
characters. -/
theorem chunk_concat_amended (text : Str) (maxChars : Nat) (hpos : 0 < maxChars) :
    Chunker.joinSep (Chunker.chunkText text maxChars) =
      Chunker.joinSep ((Chunker.nonblankBlocks
        (Chunker.splitParas (Chunker.trim (Chunker.replaceCRLF text)))).map
          (Chunker.truncate maxChars)) := by
  rw [Chunker.chunkText, Chunker.chunkLoop_join maxChars hpos _ [],
    Chunker.joinNE_nil_left]

/-- Witness for C5 as amended at `text = "abcdefgh"`, `maxChars = 5`. -/
theorem chunk_concat_witness :
    Chunker.joinSep (Chunker.chunkText (("abcdefgh").data) 5) =
      Chunker.joinSep ((Chunker.nonblankBlocks
        (Chunker.splitParas (Chunker.trim (Chunker.replaceCRLF (("abcdefgh").data))))).map
          (Chunker.truncate 5)) :=
  chunk_concat_amended (("abcdefgh").data) 5 (by decide)

/-- C8 counterexample: `chunkText "a b" 2` produces the single chunk "a "
(the truncation of the paragraph "a b" to 2 characters), but re-chunking
"a " with the same bound yields ["a"], not ["a "], because the chunker
trims its input first. -/
theorem chunk_idem_cex :
    Chunker.chunkText (("a b").data) 2 = [("a ").data] ∧
    Chunker.chunkText (("a ").data) 2 ≠ [("a ").data] := by
  decide

/-- C8 as amended: every chunk `c` that `chunkText` produced re-chunks to
exactly `[c]` provided `c` is fixed by the chunker's input normalization,
i.e. `c` equals its own trim and contains no CR-LF pair.  (A truncated chunk
may end in whitespace, and a chunk may contain a CR-LF pair arising from a
CR-CR-LF sequence in the source; re-chunking then returns the normalized
string instead of `c`.) -/
theorem chunk_idem_amended (text : Str) (maxChars : Nat) (c : Str)
    (hmem : c ∈ Chunker.chunkText text maxChars)
    (htrim : Chunker.trim c = c)
    (hcrlf : Chunker.replaceCRLF c = c) :
    Chunker.chunkText c maxChars = [c] := by
  have hgood := Chunker.chunkText_good text maxChars c hmem
  have hlen : c.length ≤ maxChars :=
    Chunker.chunkLoop_length maxChars _ [] (by simp) c hmem
  have hcne : c ≠ [] := Chunker.chunkLoop_ne_nil maxChars _ [] c hmem
  rw [Chunker.chunkText, hcrlf, htrim]
  rcases hgood with ⟨bs, hbs, hgb, rfl⟩ | ⟨b, hgb, hlt, rfl⟩
  · rw [Chunker.splitParas_joinSep bs hbs hgb]
    rw [Chunker.chunkLoop_all_fit maxChars bs []
      (fun x hx => ⟨(hgb x hx).1, (hgb x hx).2.1⟩)
      (fun hh => hbs hh.2)
      (by rw [Chunker.joinNE_nil_left]; exact hlen)]
    rw [Chunker.joinNE_nil_left]
  · have hnosep : Chunker.hasSepAux (b.take maxChars) = false :=
      Chunker.hasSepAux_take b maxChars hgb.2.2
    rw [Chunker.splitParas_of_noSep _ hnosep]
    rw [Chunker.chunkLoop_all_fit maxChars [b.take maxChars] []
      (by
        intro x hx
        rw [List.mem_singleton] at hx
        subst hx
        exact ⟨hcne, htrim⟩)
      (by simp)
      (by rw [Chunker.joinNE_nil_left, Chunker.joinSep_singleton]; exact hlen)]
    rw [Chunker.joinNE_nil_left, Chunker.joinSep_singleton]

/-- Witness for C8 as amended at `text = "hello"`, `maxChars = 900`. -/
theorem chunk_idem_witness :
    Chunker.chunkText (("hello").data) 900 = [("hello").data] :=
  chunk_idem_amended (("hello").data) 900 (("hello").data)
    (by decide) (by decide) (by decide)

/-- C3: starting from a fresh key, `limit` bump calls within the window are
all admitted, a further call still inside the window is rejected with a
positive `retryAfterSec` equal to the ceiling of the remaining window in
seconds, and a call after `resetAt` has elapsed is admitted again on a fresh
bucket. -/
theorem rate_limiter_window (limit windowMs t1 : Nat) (ts : List Nat) (tf tr : Nat)
    (hwin : 0 < windowMs)
    (hlen : ts.length + 1 = limit)
    (hts : ∀ t ∈ ts, t < t1 + windowMs)
    (htf : tf < t1 + windowMs)
    (htr : t1 + windowMs < tr) :
    (RateLimiter.run limit windowMs none (t1 :: ts ++ [tf, tr])).2 =
      List.replicate limit none ++
        [some (RateLimiter.ceilSec (t1 + windowMs - tf)), none] ∧
    0 < RateLimiter.ceilSec (t1 + windowMs - tf) ∧
    (RateLimiter.run limit windowMs none (t1 :: ts ++ [tf, tr])).1 =
      some ⟨1, tr + windowMs⟩ := by
  have hb0 : RateLimiter.bump none limit windowMs t1 = (⟨1, t1 + windowMs⟩, none) := rfl
  have hw := RateLimiter.run_window limit windowMs (t1 + windowMs) ts 1
    (fun t ht => by have := hts t ht; omega) (by omega)
  have hb1 : RateLimiter.bump (some ⟨limit, t1 + windowMs⟩) limit windowMs tf =
      (⟨limit + 1, t1 + windowMs⟩, some (RateLimiter.ceilSec (t1 + windowMs - tf))) := by
    rw [RateLimiter.bump, if_neg (by omega : ¬ tf > t1 + windowMs),
      if_pos (by omega : limit + 1 > limit)]
  have hb2 : RateLimiter.bump (some ⟨limit + 1, t1 + windowMs⟩) limit windowMs tr =
      (⟨1, tr + windowMs⟩, none) := by
    rw [RateLimiter.bump, if_pos (by omega : tr > t1 + windowMs)]
  have htail : RateLimiter.run limit windowMs (some ⟨limit, t1 + windowMs⟩) [tf, tr] =
      (some ⟨1, tr + windowMs⟩,
        [some (RateLimiter.ceilSec (t1 + windowMs - tf)), none]) := by
    simp [RateLimiter.run, hb1, hb2]
  have hone : 1 + ts.length = limit := by omega
  have hrun : RateLimiter.run limit windowMs none (t1 :: ts ++ [tf, tr]) =
      (some ⟨1, tr + windowMs⟩,
        none :: (List.replicate ts.length none ++
          [some (RateLimiter.ceilSec (t1 + windowMs - tf)), none])) := by
    simp only [RateLimiter.run, hb0, List.append_eq]
    rw [RateLimiter.run_append limit windowMs ts [tf, tr] (some ⟨1, t1 + windowMs⟩),
      hw, hone, htail]
  refine ⟨?_, RateLimiter.ceilSec_pos _ (by omega), ?_⟩
  · rw [hrun]
    rw [show limit = ts.length + 1 from hlen.symm, List.replicate_succ]
    simp
  · rw [hrun]

/-- Witness for C3 at `limit = 2`, `windowMs = 1000`, calls at 0, 1, 2 and
1001. -/
theorem rate_limiter_window_witness :
    (RateLimiter.run 2 1000 none (0 :: [1] ++ [2, 1001])).2 =
      List.replicate 2 none ++ [some (RateLimiter.ceilSec (0 + 1000 - 2)), none] ∧
    0 < RateLimiter.ceilSec (0 + 1000 - 2) ∧
    (RateLimiter.run 2 1000 none (0 :: [1] ++ [2, 1001])).1 = some ⟨1, 1001 + 1000⟩ :=
  rate_limiter_window 2 1000 0 [1] 2 1001 (by decide) (by decide)
    (by decide) (by decide) (by decide)

/-- C1 counterexample: on a fully successful request with every collaborator
call succeeding, the chat route retrieves context immediately after
admission, before the conversation is created and before the user message is
persisted — not in the order the claim states. -/
theorem chat_order_cex :
    (Chat.chatPOST envChatOk).2 =
      [Chat.Ev.admitted, Chat.Ev.retrieveCtx, Chat.Ev.createConv, Chat.Ev.insertUserMsg,
        Chat.Ev.completionCall, Chat.Ev.insertAsstMsg] ∧
    (Chat.chatPOST envChatOk).2 ≠
      [Chat.Ev.admitted, Chat.Ev.createConv, Chat.Ev.insertUserMsg, Chat.Ev.retrieveCtx,
        Chat.Ev.completionCall, Chat.Ev.insertAsstMsg] := by
  decide

/-- C1 as amended: for every admitted POST /chat request with a non-blank
message, no supplied conversation id and all collaborator calls succeeding,
the route performs admission, then context retrieval, then conversation
creation, then user-message persistence, then the completion call, then
assistant-message persistence, and returns a 200 body with exactly the fields
`conversationId`, `answer`, `sources`. -/
theorem chat_order_amended (env : Chat.ChatEnv) (cid : Str) (out : Option Str)
    (hm : (RateLimiter.bump env.minuteBucket 10 60000 env.now).2 = none)
    (hd : (RateLimiter.bump env.dayBucket 200 86400000 env.now).2 = none)
    (hmsg : (Chunker.trim (env.message.getD [])).isEmpty = false)
    (hconv : env.conversationId = none)
    (hemb : env.embedResult = .ok ())
    (hrpc : env.rpcError = none)
    (hcc : env.createConvResult = .ok cid)
    (hui : env.userInsertError = none)
    (hcomp : env.completionResult = .ok out)
    (hai : env.asstInsertError = none) :
    (Chat.chatPOST env).2 =
      [Chat.Ev.admitted, Chat.Ev.retrieveCtx, Chat.Ev.createConv, Chat.Ev.insertUserMsg,
        Chat.Ev.completionCall, Chat.Ev.insertAsstMsg] ∧
    (Chat.chatPOST env).1.status = 200 ∧
    (Chat.chatPOST env).1.body.keys = ["conversationId", "answer", "sources"] := by
  simp [Chat.chatPOST, Chat.chatStep1, Chat.chatStep2, Chat.retrieveContext,
    hm, hd, hmsg, hconv, hemb, hrpc, hcc, hui, hcomp, hai, JVal.keys]

/-- Witness for C1 as amended at the all-success environment. -/
theorem chat_order_witness :
    (Chat.chatPOST envChatOk).2 =
      [Chat.Ev.admitted, Chat.Ev.retrieveCtx, Chat.Ev.createConv, Chat.Ev.insertUserMsg,
        Chat.Ev.completionCall, Chat.Ev.insertAsstMsg] ∧
    (Chat.chatPOST envChatOk).1.status = 200 ∧
    (Chat.chatPOST envChatOk).1.body.keys = ["conversationId", "answer", "sources"] :=
  chat_order_amended envChatOk (("c1").data) (some ("ans").data)
    (by decide) (by decide) (by decide) rfl rfl rfl rfl rfl rfl rfl

/-- C4 counterexample: a request arriving exactly at the bucket's `resetAt`
with the counter full is rejected with status 429, but `retryAfterSec` is 0
and the falsy check in the catch block then omits the `Retry-After` header
entirely. -/
theorem chat_retry_after_cex :
    (Chat.chatPOST envChatAtReset).1.status = 429 ∧
    (Chat.chatPOST envChatAtReset).1.headers = [] := by
  decide

/-- C4 as amended: every rate-limited POST /chat request is answered with
status 429 and body `error`; the `Retry-After` header carries
`ceil((resetAt - now) / 1000)` seconds whenever that value is nonzero, and is
omitted when the rejection occurs exactly at `resetAt` (value 0). -/
theorem chat_retry_after_amended (env : Chat.ChatEnv) (r : Nat)
    (h : (RateLimiter.bump env.minuteBucket 10 60000 env.now).2 = some r ∨
      ((RateLimiter.bump env.minuteBucket 10 60000 env.now).2 = none ∧
        (RateLimiter.bump env.dayBucket 200 86400000 env.now).2 = some r)) :
    (Chat.chatPOST env).1.status = 429 ∧
    (Chat.chatPOST env).1.body = JVal.obj [("error", JVal.s Chat.rateMsg)] ∧
    (Chat.chatPOST env).1.headers =
      (if r ≠ 0 then [("Retry-After", Nat.repr r)] else []) ∧
    (∃ b : RateLimiter.Bucket,
      (env.minuteBucket = some b ∨ env.dayBucket = some b) ∧
      env.now ≤ b.resetAt ∧ r = RateLimiter.ceilSec (b.resetAt - env.now)) := by
  rcases h with h | ⟨hm, hd⟩
  · obtain ⟨bk, hbk, hle, hr⟩ := RateLimiter.bump_reject _ _ _ _ _ h
    refine ⟨?_, ?_, ?_, ⟨bk, Or.inl hbk, hle, hr⟩⟩ <;>
      simp [Chat.chatPOST, h, Chat.catchResp]
  · obtain ⟨bk, hbk, hle, hr⟩ := RateLimiter.bump_reject _ _ _ _ _ hd
    refine ⟨?_, ?_, ?_, ⟨bk, Or.inr hbk, hle, hr⟩⟩ <;>
      simp [Chat.chatPOST, hm, hd, Chat.catchResp]

/-- Witness for C4 as amended: rejection 500 ms before the reset, so
`retryAfterSec = 1`. -/
theorem chat_retry_after_witness :
    (Chat.chatPOST envChatRejected).1.status = 429 ∧
    (Chat.chatPOST envChatRejected).1.body = JVal.obj [("error", JVal.s Chat.rateMsg)] ∧
    (Chat.chatPOST envChatRejected).1.headers =
      (if 1 ≠ 0 then [("Retry-After", Nat.repr 1)] else []) ∧
    (∃ b : RateLimiter.Bucket,
      (envChatRejected.minuteBucket = some b ∨ envChatRejected.dayBucket = some b) ∧
      envChatRejected.now ≤ b.resetAt ∧
      1 = RateLimiter.ceilSec (b.resetAt - envChatRejected.now)) :=
  chat_retry_after_amended envChatRejected 1 (Or.inl (by decide))

/-- C7: with the request admitted and the ledger and completion calls
succeeding, (i) the context block built from zero retrieved chunks is the
empty string, (ii) when retrieval succeeds with zero rows the request still
reaches the completion call and returns 200, and (iii, iv) when the embedding
gateway or the vector-store RPC itself errors, the whole request fails with
the propagated error and the completion call is never issued. -/
theorem chat_retrieval_degrade (env : Chat.ChatEnv) (cid : Str) (out : Option Str)
    (e : Chat.UpErr)
    (hm : (RateLimiter.bump env.minuteBucket 10 60000 env.now).2 = none)
    (hd : (RateLimiter.bump env.dayBucket 200 86400000 env.now).2 = none)
    (hmsg : (Chunker.trim (env.message.getD [])).isEmpty = false)
    (hconv : env.conversationId = some cid)
    (hui : env.userInsertError = none)
    (hcomp : env.completionResult = .ok out)
    (hai : env.asstInsertError = none) :
    Chat.contextBlock [] = [] ∧
    (env.embedResult = .ok () → env.rpcError = none → env.rpcData.getD [] = [] →
      (Chat.chatPOST env).2 =
        [Chat.Ev.admitted, Chat.Ev.retrieveCtx, Chat.Ev.insertUserMsg,
          Chat.Ev.completionCall, Chat.Ev.insertAsstMsg] ∧
      (Chat.chatPOST env).1.status = 200) ∧
    (env.embedResult = .error e →
      (Chat.chatPOST env).1.status = e.status.getD 500 ∧
      (Chat.chatPOST env).1.body = JVal.obj [("error", JVal.s e.message)] ∧
      Chat.Ev.completionCall ∉ (Chat.chatPOST env).2) ∧
    (env.embedResult = .ok () → env.rpcError = some e →
      (Chat.chatPOST env).1.status = e.status.getD 500 ∧
      (Chat.chatPOST env).1.body = JVal.obj [("error", JVal.s e.message)] ∧
      Chat.Ev.completionCall ∉ (Chat.chatPOST env).2) := by
  refine ⟨rfl, ?_, ?_, ?_⟩
  · intro hemb hrpc hdata
    simp [Chat.chatPOST, Chat.chatStep1, Chat.chatStep2, Chat.retrieveContext,
      hm, hd, hmsg, hconv, hemb, hrpc, hdata, hui, hcomp, hai]
  · intro hemb
    simp [Chat.chatPOST, Chat.retrieveContext, Chat.catchResp, hm, hd, hemb]
  · intro hemb hrpc
    simp [Chat.chatPOST, Chat.retrieveContext, Chat.catchResp, hm, hd, hemb, hrpc]

/-- Witness for C7 at the zero-chunks environment. -/
theorem chat_retrieval_degrade_witness :
    Chat.contextBlock [] = [] ∧
    (envChatCtx.embedResult = .ok () → envChatCtx.rpcError = none →
      envChatCtx.rpcData.getD [] = [] →
      (Chat.chatPOST envChatCtx).2 =
        [Chat.Ev.admitted, Chat.Ev.retrieveCtx, Chat.Ev.insertUserMsg,
          Chat.Ev.completionCall, Chat.Ev.insertAsstMsg] ∧
      (Chat.chatPOST envChatCtx).1.status = 200) ∧
    (envChatCtx.embedResult = .error ⟨none, []⟩ →
      (Chat.chatPOST envChatCtx).1.status = (⟨none, []⟩ : Chat.UpErr).status.getD 500 ∧
      (Chat.chatPOST envChatCtx).1.body =
        JVal.obj [("error", JVal.s (⟨none, []⟩ : Chat.UpErr).message)] ∧
      Chat.Ev.completionCall ∉ (Chat.chatPOST envChatCtx).2) ∧
    (envChatCtx.embedResult = .ok () → envChatCtx.rpcError = some ⟨none, []⟩ →
      (Chat.chatPOST envChatCtx).1.status = (⟨none, []⟩ : Chat.UpErr).status.getD 500 ∧
      (Chat.chatPOST envChatCtx).1.body =
        JVal.obj [("error", JVal.s (⟨none, []⟩ : Chat.UpErr).message)] ∧
      Chat.Ev.completionCall ∉ (Chat.chatPOST envChatCtx).2) :=
  chat_retrieval_degrade envChatCtx (("c7").data) (some ("ans").data) ⟨none, []⟩
    (by decide) (by decide) (by decide) rfl rfl rfl rfl

/-- C6: every POST /ingest request whose `x-admin-key` header is missing or
differs from the configured secret is answered 401 and issues no collaborator
call, so no Document row is created. -/
theorem ingest_auth_guard (env : Ingest.IngestEnv)
    (h : env.adminKeyHeader = none ∨ env.adminKeyHeader ≠ env.ragAdminKey) :
    (Ingest.ingestPOST env).1.status = 401 ∧ (Ingest.ingestPOST env).2 = [] := by
  cases hk : env.ragAdminKey with
  | none => simp [Ingest.ingestPOST, hk, Ingest.unauthorized]
  | some secret =>
    by_cases hs : secret.isEmpty
    · simp [Ingest.ingestPOST, hk, hs, Ingest.unauthorized]
    · have hne : ¬ env.adminKeyHeader = some secret := by
        rcases h with h | h
        · rw [h]
          simp
        · rw [hk] at h
          exact h
      simp [Ingest.ingestPOST, hk, hs, hne, Ingest.unauthorized]

/-- Witness for C6: secret configured, header absent. -/
theorem ingest_auth_guard_witness :
    (Ingest.ingestPOST envIngestNoKey).1.status = 401 ∧
    (Ingest.ingestPOST envIngestNoKey).2 = [] :=
  ingest_auth_guard envIngestNoKey (Or.inl rfl)

/-- C10: when `RAG_ADMIN_KEY` is unset or empty, every POST /ingest request
is rejected with 401 before any collaborator call, whatever `x-admin-key`
header is supplied. -/
theorem ingest_fail_closed (env : Ingest.IngestEnv)
    (h : env.ragAdminKey = none ∨ env.ragAdminKey = some []) :
    (Ingest.ingestPOST env).1.status = 401 ∧ (Ingest.ingestPOST env).2 = [] := by
  rcases h with h | h <;> simp [Ingest.ingestPOST, h, Ingest.unauthorized]

/-- Witness for C10: key unset, a header supplied anyway. -/
theorem ingest_fail_closed_witness :
    (Ingest.ingestPOST envIngestUnset).1.status = 401 ∧
    (Ingest.ingestPOST envIngestUnset).2 = [] :=
  ingest_fail_closed envIngestUnset (Or.inl rfl)

/-- C9 counterexample: a fully successful ingest request returns 200 whose
body has no `chunkCount` field — the chunk count is returned under the field
name `chunks`. -/
theorem ingest_chunkcount_cex :
    (Ingest.ingestPOST envIngestOk).1.status = 200 ∧
    (Ingest.ingestPOST envIngestOk).1.body.hasField "chunkCount" = false ∧
    (Ingest.ingestPOST envIngestOk).1.body.hasField "chunks" = true := by
  decide

/-- C9 as amended: every successful POST /ingest request returns 200 with
body `ok`, `documentId` and `chunks`, where `chunks` equals the number of
chunks `chunkText(text, 900)` produced from the submitted text. -/
theorem ingest_success_body_amended (env : Ingest.IngestEnv)
    (secret docId t x : Str)
    (hk : env.ragAdminKey = some secret) (hsne : secret.isEmpty = false)
    (hh : env.adminKeyHeader = some secret)
    (ht : env.title = some t) (htne : t.isEmpty = false)
    (hx : env.text = some x) (hxne : x.isEmpty = false)
    (hdoc : env.docInsertResult = .ok docId)
    (hemb : env.embedResult = .ok ())
    (hch : env.chunkInsertError = none) :
    (Ingest.ingestPOST env).1.status = 200 ∧
    (Ingest.ingestPOST env).1.body =
      JVal.obj [("ok", JVal.b true), ("documentId", JVal.s docId),
        ("chunks", JVal.n (Chunker.chunkText x 900).length)] ∧
    (Ingest.ingestPOST env).2 =
      [Ingest.Ev.insertDocument, Ingest.Ev.embedChunks, Ingest.Ev.insertChunks] := by
  simp [Ingest.ingestPOST, Ingest.isFalsy, hk, hsne, hh, ht, htne, hx, hxne,
    hdoc, hemb, hch]

/-- Witness for C9 as amended at the all-success ingest environment. -/
theorem ingest_success_body_witness :
    (Ingest.ingestPOST envIngestOk).1.status = 200 ∧
    (Ingest.ingestPOST envIngestOk).1.body =
      JVal.obj [("ok", JVal.b true), ("documentId", JVal.s (("d1").data)),
        ("chunks", JVal.n (Chunker.chunkText (("hello").data) 900).length)] ∧
    (Ingest.ingestPOST envIngestOk).2 =
      [Ingest.Ev.insertDocument, Ingest.Ev.embedChunks, Ingest.Ev.insertChunks] :=
  ingest_success_body_amended envIngestOk (("k").data) (("d1").data) (("t").data)
    (("hello").data) rfl (by decide) rfl rfl (by decide) rfl (by decide) rfl rfl rfl
